import Mathlib

/-!
Shallow embedding of the OSS point-in-time-recovery tool (`src/main.py`)
and proofs about its recovery-planning and apply phases.

Timestamps are modelled as natural numbers (Unix epoch seconds):
`datetime.datetime.fromtimestamp` is a strictly monotone map from epoch
numbers to UTC instants, so every `<=`/`>` comparison between
`version_time` values and the `recovery_time` cutoff in the Python code
corresponds exactly to the same comparison on the underlying numbers.

The Python dict `latest_versions` is modelled as an association list
(`dictGet`/`dictSet` mirror `d[k]`/`d[k] = v` membership and lookup
semantics) and the Python set `keys_without_older_versions` as a list of
keys with `setAdd`/`setDiscard` mirroring `s.add(k)`/`s.discard(k)`
membership semantics.
-/

namespace OssPitr

/-- One record of `result.versions` as consumed by `get_object_versions`:
`obj_version.key`, `obj_version.versionid`, `obj_version.last_modified`. -/
structure ObjVersion where
  key : String
  versionid : String
  last_modified : Nat
  deriving Repr, DecidableEq

/-- The value stored in `latest_versions[key]` (`main.py` lines 95-99):
`versionid`, `version_time` (the datetime of `last_modified`, here the
same number) and `last_modified_str` (the raw `obj_version.last_modified`). -/
structure VersionInfo where
  versionid : String
  version_time : Nat
  last_modified_str : Nat
  deriving Repr, DecidableEq

/-- Python-dict lookup `d[k]` / `k in d` on the association-list model. -/
def dictGet (d : List (String × VersionInfo)) (k : String) : Option VersionInfo :=
  match d with
  | [] => none
  | (k', v) :: rest => if k' = k then some v else dictGet rest k

/-- Python-dict update `d[k] = v` on the association-list model. -/
def dictSet (d : List (String × VersionInfo)) (k : String) (v : VersionInfo) :
    List (String × VersionInfo) :=
  match d with
  | [] => [(k, v)]
  | (k', v') :: rest => if k' = k then (k, v) :: rest else (k', v') :: dictSet rest k v

/-- Python-set `s.add(k)` (membership model). -/
def setAdd (s : List String) (k : String) : List String :=
  if k ∈ s then s else k :: s

/-- Python-set `s.discard(k)` (membership model). -/
def setDiscard (s : List String) (k : String) : List String :=
  s.filter (fun x => x ≠ k)

/-- The scan state of `get_object_versions`: the `latest_versions` dict and
the `keys_without_older_versions` set. -/
structure ScanState where
  latest_versions : List (String × VersionInfo)
  keys_without_older_versions : List String
  deriving Repr

/-- The loop body of `get_object_versions` for one `obj_version`
(`main.py` lines 87-103). -/
def processVersion (recovery_time : Nat) (st : ScanState) (v : ObjVersion) : ScanState :=
  let version_time := v.last_modified
  if version_time ≤ recovery_time then
    let lv :=
      match dictGet st.latest_versions v.key with
      | none => dictSet st.latest_versions v.key
          ⟨v.versionid, version_time, v.last_modified⟩
      | some info =>
          if version_time > info.version_time then
            dictSet st.latest_versions v.key ⟨v.versionid, version_time, v.last_modified⟩
          else
            st.latest_versions
    { latest_versions := lv,
      keys_without_older_versions := setDiscard st.keys_without_older_versions v.key }
  else
    match dictGet st.latest_versions v.key with
    | none =>
        { st with keys_without_older_versions := setAdd st.keys_without_older_versions v.key }
    | some _ => st

/-- `get_object_versions` restricted to its scan over the stream of version
records (the concatenation of all pages' `result.versions`), starting from
the empty dict and empty set (`main.py` lines 74-75, 87-103). -/
def get_object_versions (recovery_time : Nat) (stream : List ObjVersion) : ScanState :=
  stream.foldl (processVersion recovery_time) ⟨[], []⟩

/-- One mutating copy request issued by `restore_latest_versions`
(`bucket.copy_object(source_bucket_name=..., source_key=..., target_key=...,
params={'versionId': ...})`, `main.py` lines 128-133). -/
structure CopyCall where
  source_bucket_name : String
  source_key : String
  target_key : String
  versionId : String
  deriving Repr, DecidableEq

/-- A log line emitted by the apply phases (`logger.info`/`logger.error`
calls of `restore_latest_versions` and `delete_newer_versions`), carrying
the data interpolated into the message. -/
inductive LogLine where
  | dryRunWouldRestore (key versionid : String)
  | restoring (key versionid : String)
  | restoreError (key versionid msg : String)
  | dryRunWouldDelete (key : String)
  | deleting (key : String)
  | deleteError (key msg : String)
  deriving Repr, DecidableEq

/-- `restore_latest_versions` (`main.py` lines 114-137). The storage client
is the function `copy_object`; a Python exception raised by
`bucket.copy_object` is an `Except.error` result. Returns the copy calls
issued and the log lines emitted, in program order. The `try`/`except`
around the copy is visible in the `match`: both outcomes fall through to
the next key and the function itself never propagates an error. -/
def restore_latest_versions (bucket_name : String)
    (copy_object : CopyCall → Except String Unit)
    (latest_versions : List (String × VersionInfo)) (dry_run : Bool) :
    List CopyCall × List LogLine :=
  match latest_versions with
  | [] => ([], [])
  | (key, version_info) :: rest =>
    let versionid := version_info.versionid
    let tail := restore_latest_versions bucket_name copy_object rest dry_run
    if dry_run then
      (tail.1, LogLine.dryRunWouldRestore key versionid :: tail.2)
    else
      let call : CopyCall := ⟨bucket_name, key, key, versionid⟩
      match copy_object call with
      | Except.ok _ =>
          (call :: tail.1, LogLine.restoring key versionid :: tail.2)
      | Except.error e =>
          (call :: tail.1,
           LogLine.restoring key versionid :: LogLine.restoreError key versionid e :: tail.2)

/-- `delete_newer_versions` (`main.py` lines 139-154), with the same
conventions as `restore_latest_versions`: returns the keys passed to
`bucket.delete_object` and the log lines, in program order. -/
def delete_newer_versions (delete_object : String → Except String Unit)
    (keys_without_older_versions : List String) (dry_run : Bool) :
    List String × List LogLine :=
  match keys_without_older_versions with
  | [] => ([], [])
  | key :: rest =>
    let tail := delete_newer_versions delete_object rest dry_run
    if dry_run then
      (tail.1, LogLine.dryRunWouldDelete key :: tail.2)
    else
      match delete_object key with
      | Except.ok _ =>
          (key :: tail.1, LogLine.deleting key :: tail.2)
      | Except.error e =>
          (key :: tail.1, LogLine.deleting key :: LogLine.deleteError key e :: tail.2)

/-- One request to `bucket.list_object_versions` (`main.py` lines 81-85).
Python's keyword `prefix` is spelled `pfx` here because `prefix` is
reserved in Lean. -/
structure ListRequest where
  pfx : String
  key_marker : String
  versionid_marker : String
  max_keys : Nat
  deriving Repr, DecidableEq

/-- The fields of a `list_object_versions` response that
`get_object_versions` reads: `result.versions`, `result.is_truncated`,
`result.next_key_marker`, `result.next_versionid_marker`. -/
structure ListPage where
  versions : List ObjVersion
  is_truncated : Bool
  next_key_marker : String
  next_versionid_marker : String
  deriving Repr

/-- The `while True` pagination loop of `get_object_versions`
(`main.py` lines 79-108). The storage client is the function `svc`; a
Python exception raised by `list_object_versions` is an `Except.error`,
which the loop does not catch. `fuel` bounds the number of iterations we
unfold: `Except.ok none` means the loop was still running after `fuel`
iterations (the Python loop has no bound of its own). On success it
returns the final scan state together with the list of requests issued,
in order. -/
def gov_loop (svc : ListRequest → Except String ListPage) (pfx : String)
    (recovery_time : Nat) :
    Nat → String → String → ScanState → List ListRequest →
    Except String (Option (ScanState × List ListRequest))
  | 0, _, _, _, _ => Except.ok none
  | fuel + 1, km, vm, st, reqs =>
    match svc (ListRequest.mk pfx km vm 999) with
    | Except.error e => Except.error e
    | Except.ok page =>
      if page.is_truncated then
        gov_loop svc pfx recovery_time fuel page.next_key_marker page.next_versionid_marker
          (page.versions.foldl (processVersion recovery_time) st)
          (reqs ++ [ListRequest.mk pfx km vm 999])
      else
        Except.ok (some (page.versions.foldl (processVersion recovery_time) st,
          reqs ++ [ListRequest.mk pfx km vm 999]))

/-- `get_object_versions` as actually run: the pagination loop started
with empty markers (`next_key_marker = ''`, `next_versionid_marker = ''`),
empty dict and empty set (`main.py` lines 74-77). -/
def get_object_versions_paged (svc : ListRequest → Except String ListPage)
    (pfx : String) (recovery_time : Nat) (fuel : Nat) :
    Except String (Option (ScanState × List ListRequest)) :=
  gov_loop svc pfx recovery_time fuel "" "" ⟨[], []⟩ []

/-- The observable outcome of `recover_objects`: the mutating calls issued
and the log lines emitted by each apply phase. -/
structure RecoverOutcome where
  copy_calls : List CopyCall
  delete_calls : List String
  restore_logs : List LogLine
  delete_logs : List LogLine
  deriving Repr, DecidableEq

/-- `recover_objects` (`main.py` lines 59-69): list-and-plan, then
`restore_latest_versions`, then `delete_newer_versions` only when
`delete_newer` is set. An error from the listing propagates (there is no
`try` in `recover_objects` or `get_object_versions`), in which case no
restore or delete work happens. -/
def recover_objects (svc : ListRequest → Except String ListPage)
    (copy_object : CopyCall → Except String Unit)
    (delete_object : String → Except String Unit)
    (bucket_name pfx : String) (recovery_time : Nat)
    (dry_run delete_newer : Bool) (fuel : Nat) :
    Except String (Option RecoverOutcome) :=
  match get_object_versions_paged svc pfx recovery_time fuel with
  | Except.error e => Except.error e
  | Except.ok none => Except.ok none
  | Except.ok (some (st, _)) =>
    let r := restore_latest_versions bucket_name copy_object st.latest_versions dry_run
    let d :=
      if delete_newer then
        delete_newer_versions delete_object st.keys_without_older_versions dry_run
      else ([], [])
    Except.ok (some ⟨r.1, d.1, r.2, d.2⟩)

/-- A test-double storage service used by concrete witnesses: it answers
every request with a single empty, non-truncated page. -/
def svcOnePage : ListRequest → Except String ListPage :=
  fun _ => Except.ok (ListPage.mk [] false "" "")

/-- A test-double storage service used by concrete witnesses: it answers
the initial request (empty key marker) with a truncated page pointing at
markers `("next", "nv")` and fails every follow-up request. -/
def svcSecondPageFails : ListRequest → Except String ListPage :=
  fun r =>
    if r.key_marker = "" then Except.ok (ListPage.mk [] true "next" "nv")
    else Except.error "boom"

/-- The marker pair the loop would use on its `n`-th request when the
service is the deterministic function `svc`: `("", "")` first, then the
`next_key_marker`/`next_versionid_marker` of the previous response (the
error case returns junk; it is only used under hypotheses ruling it out). -/
def markerChain (svc : ListRequest → Except String ListPage) (pfx : String) :
    Nat → String × String
  | 0 => ("", "")
  | n + 1 =>
    match svc ⟨pfx, (markerChain svc pfx n).1, (markerChain svc pfx n).2, 999⟩ with
    | Except.ok page => (page.next_key_marker, page.next_versionid_marker)
    | Except.error _ => ("", "")

/-- The `n`-th request along the marker chain. -/
def chainReq (svc : ListRequest → Except String ListPage) (pfx : String) (n : Nat) :
    ListRequest :=
  ⟨pfx, (markerChain svc pfx n).1, (markerChain svc pfx n).2, 999⟩

/-- Maximum of two optional timestamps (`none` = no timestamp seen). -/
def omax : Option Nat → Option Nat → Option Nat
  | none, b => b
  | some a, none => some a
  | some a, some b => some (max a b)

/-- The timestamp recorded for `k` in the scan state, if any. -/
def bestTime (st : ScanState) (k : String) : Option Nat :=
  (dictGet st.latest_versions k).map VersionInfo.version_time

/-- The timestamp a version record contributes for key `k` under cutoff
`c`: its `last_modified` when it is a version of `k` at or before `c`. -/
def qualContrib (c : Nat) (k : String) (v : ObjVersion) : Option Nat :=
  if v.key = k ∧ v.last_modified ≤ c then some v.last_modified else none

/-- The maximum `last_modified` among versions of `k` at or before `c` in
a stream (`none` when there is no such version). -/
def maxQual (c : Nat) (k : String) : List ObjVersion → Option Nat
  | [] => none
  | v :: l => omax (qualContrib c k v) (maxQual c k l)

section DictSetLemmas

theorem dictGet_dictSet_self (d : List (String × VersionInfo)) (k : String) (v : VersionInfo) :
    dictGet (dictSet d k v) k = some v := by
  induction d with
  | nil => simp [dictGet, dictSet]
  | cons p rest ih =>
      obtain ⟨k', v'⟩ := p
      by_cases h : k' = k
      · simp [dictGet, dictSet, h]
      · simp [dictGet, dictSet, h, ih]

theorem dictGet_dictSet_ne (d : List (String × VersionInfo)) (k k' : String) (v : VersionInfo)
    (h : k' ≠ k) : dictGet (dictSet d k v) k' = dictGet d k' := by
  induction d with
  | nil => simp [dictGet, dictSet, Ne.symm h]
  | cons p rest ih =>
      obtain ⟨k₀, v₀⟩ := p
      by_cases h₀ : k₀ = k
      · subst h₀
        simp [dictGet, dictSet, Ne.symm h]
      · simp [dictGet, dictSet, h₀, ih]

theorem mem_setAdd (s : List String) (k x : String) :
    x ∈ setAdd s k ↔ x ∈ s ∨ x = k := by
  by_cases h : k ∈ s
  · simp [setAdd, h]
    intro hx; subst hx; exact h
  · simp [setAdd, h, or_comm]

theorem mem_setDiscard (s : List String) (k x : String) :
    x ∈ setDiscard s k ↔ x ∈ s ∧ x ≠ k := by
  simp [setDiscard]

end DictSetLemmas

section OmaxLemmas

theorem omax_none_right (a : Option Nat) : omax a none = a := by
  cases a <;> rfl

theorem omax_assoc (a b c : Option Nat) : omax (omax a b) c = omax a (omax b c) := by
  cases a <;> cases b <;> cases c <;> simp [omax, Nat.max_assoc]

theorem omax_eq_none_iff (a b : Option Nat) : omax a b = none ↔ a = none ∧ b = none := by
  cases a <;> cases b <;> simp [omax]

theorem omax_some_left (a : Nat) (b : Option Nat) :
    ∃ u, omax (some a) b = some u ∧ a ≤ u := by
  cases b with
  | none => exact ⟨a, rfl, le_refl a⟩
  | some x => exact ⟨max a x, rfl, le_max_left a x⟩

theorem qualContrib_eq_none_iff (c : Nat) (k : String) (v : ObjVersion) :
    qualContrib c k v = none ↔ ¬(v.key = k ∧ v.last_modified ≤ c) := by
  by_cases h : v.key = k ∧ v.last_modified ≤ c <;> simp [qualContrib, h]

end OmaxLemmas

section StepLemmas

theorem latest_processVersion_gt (c : Nat) (st : ScanState) (v : ObjVersion)
    (hgt : ¬ v.last_modified ≤ c) :
    (processVersion c st v).latest_versions = st.latest_versions := by
  unfold processVersion
  cases hget : dictGet st.latest_versions v.key with
  | none => simp [hgt, hget]
  | some info => simp [hgt, hget]

theorem dictGet_processVersion_ne (c : Nat) (st : ScanState) (v : ObjVersion) (k : String)
    (hk : v.key ≠ k) :
    dictGet (processVersion c st v).latest_versions k = dictGet st.latest_versions k := by
  have hne : k ≠ v.key := fun h => hk h.symm
  unfold processVersion
  by_cases hle : v.last_modified ≤ c
  · cases hget : dictGet st.latest_versions v.key with
    | none => simp [hle, hget, dictGet_dictSet_ne _ _ _ _ hne]
    | some info =>
        by_cases hgt2 : v.last_modified > info.version_time
        · simp [hle, hget, hgt2, dictGet_dictSet_ne _ _ _ _ hne]
        · simp [hle, hget, hgt2]
  · cases hget : dictGet st.latest_versions v.key with
    | none => simp [hle, hget]
    | some info => simp [hle, hget]

theorem dictGet_processVersion_isSome (c : Nat) (st : ScanState) (v : ObjVersion)
    (hle : v.last_modified ≤ c) :
    (dictGet (processVersion c st v).latest_versions v.key).isSome := by
  unfold processVersion
  cases hget : dictGet st.latest_versions v.key with
  | none => simp [hle, hget, dictGet_dictSet_self]
  | some info =>
      by_cases hgt2 : v.last_modified > info.version_time
      · simp [hle, hget, hgt2, dictGet_dictSet_self]
      · simp [hle, hget, hgt2]

theorem bestTime_processVersion (c : Nat) (st : ScanState) (v : ObjVersion) (k : String) :
    bestTime (processVersion c st v) k = omax (bestTime st k) (qualContrib c k v) := by
  by_cases hk : v.key = k
  · subst hk
    by_cases hle : v.last_modified ≤ c
    · cases hget : dictGet st.latest_versions v.key with
      | none =>
          simp [processVersion, bestTime, qualContrib, hle, hget, dictGet_dictSet_self, omax]
      | some info =>
          by_cases hgt2 : v.last_modified > info.version_time
          · simp [processVersion, bestTime, qualContrib, hle, hget, hgt2,
              dictGet_dictSet_self, omax, max_eq_right (le_of_lt hgt2)]
          · have hle2 : v.last_modified ≤ info.version_time := Nat.le_of_not_lt hgt2
            simp [processVersion, bestTime, qualContrib, hle, hget, hgt2, omax,
              max_eq_left hle2]
    · cases hget : dictGet st.latest_versions v.key with
      | none => simp [processVersion, bestTime, qualContrib, hle, hget, omax]
      | some info => simp [processVersion, bestTime, qualContrib, hle, hget, omax]
  · rw [bestTime, bestTime, dictGet_processVersion_ne c st v k hk,
      (qualContrib_eq_none_iff c k v).mpr (fun hq => hk hq.1), omax_none_right]

theorem orphans_processVersion_ne (c : Nat) (st : ScanState) (v : ObjVersion) (k : String)
    (hk : v.key ≠ k) :
    (k ∈ (processVersion c st v).keys_without_older_versions ↔
      k ∈ st.keys_without_older_versions) := by
  have hne : k ≠ v.key := fun h => hk h.symm
  unfold processVersion
  by_cases hle : v.last_modified ≤ c
  · simp [hle, mem_setDiscard, hne]
  · cases hget : dictGet st.latest_versions v.key with
    | none => simp [hle, hget, mem_setAdd, hne]
    | some info => simp [hle, hget]

theorem orphans_processVersion_le (c : Nat) (st : ScanState) (v : ObjVersion)
    (hle : v.last_modified ≤ c) :
    v.key ∉ (processVersion c st v).keys_without_older_versions := by
  unfold processVersion
  simp [hle, mem_setDiscard]

theorem orphans_processVersion_gt (c : Nat) (st : ScanState) (v : ObjVersion)
    (hgt : ¬ v.last_modified ≤ c) :
    (v.key ∈ (processVersion c st v).keys_without_older_versions ↔
      (v.key ∈ st.keys_without_older_versions ∨ dictGet st.latest_versions v.key = none)) := by
  unfold processVersion
  cases hget : dictGet st.latest_versions v.key with
  | none => simp [hgt, hget, mem_setAdd]
  | some info => simp [hgt, hget]

end StepLemmas

section FoldLemmas

theorem bestTime_foldl (c : Nat) (l : List ObjVersion) (st : ScanState) (k : String) :
    bestTime (List.foldl (processVersion c) st l) k = omax (bestTime st k) (maxQual c k l) := by
  induction l generalizing st with
  | nil => simp [maxQual, omax_none_right]
  | cons v l ih =>
      simp only [List.foldl_cons, maxQual]
      rw [ih, bestTime_processVersion]
      rw [omax_assoc]

theorem mem_orphans_foldl (c : Nat) (l : List ObjVersion) (st : ScanState) (k : String) :
    (k ∈ (List.foldl (processVersion c) st l).keys_without_older_versions ↔
      ((¬ ∃ v ∈ l, v.key = k ∧ v.last_modified ≤ c) ∧
        (k ∈ st.keys_without_older_versions ∨
          (dictGet st.latest_versions k = none ∧ ∃ v ∈ l, v.key = k ∧ c < v.last_modified)))) := by
  induction l generalizing st with
  | nil => simp
  | cons v l ih =>
      simp only [List.foldl_cons]
      rw [ih]
      by_cases hk : v.key = k
      · subst hk
        by_cases hle : v.last_modified ≤ c
        · have h1 := orphans_processVersion_le c st v hle
          have h2 : dictGet (processVersion c st v).latest_versions v.key ≠ none :=
            Option.isSome_iff_ne_none.mp (dictGet_processVersion_isSome c st v hle)
          simp [h1, h2, hle]
        · have h1 := orphans_processVersion_gt c st v hle
          have h2 := latest_processVersion_gt c st v hle
          have hgt' : c < v.last_modified := Nat.lt_of_not_le hle
          rw [h2, h1]
          simp only [List.mem_cons]
          constructor
          · rintro ⟨hq, hrest⟩
            refine ⟨?_, ?_⟩
            · rintro ⟨w, hw | hw, hwk, hwle⟩
              · subst hw; exact hle hwle
              · exact hq ⟨w, hw, hwk, hwle⟩
            · rcases hrest with (hmem | hnone) | ⟨hnone, _⟩
              · exact Or.inl hmem
              · exact Or.inr ⟨hnone, v, Or.inl rfl, rfl, hgt'⟩
              · exact Or.inr ⟨hnone, v, Or.inl rfl, rfl, hgt'⟩
          · rintro ⟨hq, hrest⟩
            refine ⟨?_, ?_⟩
            · rintro ⟨w, hw, hwk, hwle⟩
              exact hq ⟨w, Or.inr hw, hwk, hwle⟩
            · rcases hrest with hmem | ⟨hnone, _⟩
              · exact Or.inl (Or.inl hmem)
              · exact Or.inl (Or.inr hnone)
      · rw [orphans_processVersion_ne c st v k hk, dictGet_processVersion_ne c st v k hk]
        simp only [List.mem_cons]
        constructor
        · rintro ⟨hq, hrest⟩
          refine ⟨?_, ?_⟩
          · rintro ⟨w, hw | hw, hwk, hwle⟩
            · subst hw; exact hk hwk
            · exact hq ⟨w, hw, hwk, hwle⟩
          · rcases hrest with hmem | ⟨hnone, w, hw, hwk, hwgt⟩
            · exact Or.inl hmem
            · exact Or.inr ⟨hnone, w, Or.inr hw, hwk, hwgt⟩
        · rintro ⟨hq, hrest⟩
          refine ⟨?_, ?_⟩
          · rintro ⟨w, hw, hwk, hwle⟩
            exact hq ⟨w, Or.inr hw, hwk, hwle⟩
          · rcases hrest with hmem | ⟨hnone, w, hw | hw, hwk, hwgt⟩
            · exact Or.inl hmem
            · exact absurd hwk (hw ▸ hk)
            · exact Or.inr ⟨hnone, w, hw, hwk, hwgt⟩

theorem bestTime_run (c : Nat) (l : List ObjVersion) (k : String) :
    bestTime (get_object_versions c l) k = maxQual c k l := by
  unfold get_object_versions
  rw [bestTime_foldl]
  rfl

theorem mem_orphans_run (c : Nat) (l : List ObjVersion) (k : String) :
    (k ∈ (get_object_versions c l).keys_without_older_versions ↔
      ((¬ ∃ v ∈ l, v.key = k ∧ v.last_modified ≤ c) ∧
        ∃ v ∈ l, v.key = k ∧ c < v.last_modified)) := by
  unfold get_object_versions
  rw [mem_orphans_foldl]
  simp [dictGet]

end FoldLemmas

section MaxQualLemmas

theorem maxQual_eq_none_iff (c : Nat) (k : String) (l : List ObjVersion) :
    maxQual c k l = none ↔ ¬ ∃ v ∈ l, v.key = k ∧ v.last_modified ≤ c := by
  induction l with
  | nil => simp [maxQual]
  | cons v l ih =>
      rw [maxQual, omax_eq_none_iff, qualContrib_eq_none_iff, ih]
      simp only [List.mem_cons]
      constructor
      · rintro ⟨h1, h2⟩ ⟨w, hw | hw, hwq⟩
        · exact h1 (hw ▸ hwq)
        · exact h2 ⟨w, hw, hwq⟩
      · intro h
        refine ⟨fun hq => h ⟨v, Or.inl rfl, hq⟩, fun hex => ?_⟩
        obtain ⟨w, hw, hwq⟩ := hex
        exact h ⟨w, Or.inr hw, hwq⟩

theorem maxQual_spec (c : Nat) (k : String) (l : List ObjVersion) (t : Nat)
    (h : maxQual c k l = some t) :
    ((∃ v ∈ l, v.key = k ∧ v.last_modified ≤ c ∧ v.last_modified = t) ∧
      (∀ v ∈ l, v.key = k → v.last_modified ≤ c → v.last_modified ≤ t)) := by
  induction l generalizing t with
  | nil => simp [maxQual] at h
  | cons v l ih =>
      rw [maxQual] at h
      by_cases hq : v.key = k ∧ v.last_modified ≤ c
      · rw [qualContrib, if_pos hq] at h
        cases hm : maxQual c k l with
        | none =>
            rw [hm] at h
            simp only [omax, Option.some.injEq] at h
            constructor
            · exact ⟨v, List.mem_cons_self v l, hq.1, hq.2, h⟩
            · intro w hw hwk hwle
              rcases List.mem_cons.mp hw with hw | hw
              · subst hw; exact le_of_eq h
              · exact absurd ((maxQual_eq_none_iff c k l).mp hm) (fun hn => hn ⟨w, hw, hwk, hwle⟩)
        | some m =>
            rw [hm] at h
            simp only [omax, Option.some.injEq] at h
            obtain ⟨⟨w, hw, hwk, hwle, hwt⟩, hub⟩ := ih m hm
            subst h
            constructor
            · rcases le_total m v.last_modified with hcmp | hcmp
              · exact ⟨v, List.mem_cons_self v l, hq.1, hq.2, (max_eq_left hcmp).symm⟩
              · exact ⟨w, List.mem_cons_of_mem v hw, hwk, hwle,
                  hwt.trans (max_eq_right hcmp).symm⟩
            · intro u hu huk hule
              rcases List.mem_cons.mp hu with hu | hu
              · subst hu; exact le_max_left _ _
              · exact (hub u hu huk hule).trans (le_max_right _ _)
      · rw [qualContrib, if_neg hq] at h
        have h' : maxQual c k l = some t := h
        obtain ⟨⟨w, hw, hwk, hwle, hwt⟩, hub⟩ := ih t h'
        constructor
        · exact ⟨w, List.mem_cons_of_mem v hw, hwk, hwle, hwt⟩
        · intro u hu huk hule
          rcases List.mem_cons.mp hu with hu | hu
          · subst hu; exact absurd ⟨huk, hule⟩ hq
          · exact hub u hu huk hule

end MaxQualLemmas

/-- C1: after the scan of `get_object_versions`, every key observed in the
version stream appears in exactly one of `latest_versions` and
`keys_without_older_versions` — never in both and never in neither. -/
theorem get_object_versions_classifies_each_key (c : Nat) (stream : List ObjVersion)
    (k : String) (hobs : ∃ v ∈ stream, v.key = k) :
    (((dictGet (get_object_versions c stream).latest_versions k).isSome ∧
        k ∉ (get_object_versions c stream).keys_without_older_versions) ∨
      (dictGet (get_object_versions c stream).latest_versions k = none ∧
        k ∈ (get_object_versions c stream).keys_without_older_versions)) := by
  by_cases hq : ∃ v ∈ stream, v.key = k ∧ v.last_modified ≤ c
  · left
    constructor
    · have hbt := bestTime_run c stream k
      have hmn : maxQual c k stream ≠ none :=
        fun hn => (maxQual_eq_none_iff c k stream).mp hn hq
      simp only [bestTime] at hbt
      cases hd : dictGet (get_object_versions c stream).latest_versions k with
      | none => rw [hd] at hbt; simp at hbt; exact absurd hbt.symm hmn
      | some info => simp
    · rw [mem_orphans_run]
      rintro ⟨hnq, _⟩
      exact hnq hq
  · right
    have hbt := bestTime_run c stream k
    have hmn : maxQual c k stream = none := (maxQual_eq_none_iff c k stream).mpr hq
    rw [hmn] at hbt
    simp only [bestTime] at hbt
    constructor
    · exact Option.map_eq_none'.mp hbt
    · rw [mem_orphans_run]
      obtain ⟨v, hv, hvk⟩ := hobs
      have hvgt : c < v.last_modified :=
        Nat.lt_of_not_le (fun hle => hq ⟨v, hv, hvk, hle⟩)
      exact ⟨hq, v, hv, hvk, hvgt⟩

/-- Witness for C1 at a concrete stream: key "a" has a qualifying version,
key "b" does not; both are observed and each is classified. -/
theorem get_object_versions_classifies_each_key_witness :
    ((∃ v ∈ [ObjVersion.mk "a" "v1" 5, ObjVersion.mk "b" "v2" 20], v.key = "a") ∧
      (((dictGet (get_object_versions 10
            [ObjVersion.mk "a" "v1" 5, ObjVersion.mk "b" "v2" 20]).latest_versions "a").isSome ∧
          "a" ∉ (get_object_versions 10
            [ObjVersion.mk "a" "v1" 5, ObjVersion.mk "b" "v2" 20]).keys_without_older_versions) ∨
        (dictGet (get_object_versions 10
            [ObjVersion.mk "a" "v1" 5, ObjVersion.mk "b" "v2" 20]).latest_versions "a" = none ∧
          "a" ∈ (get_object_versions 10
            [ObjVersion.mk "a" "v1" 5, ObjVersion.mk "b" "v2" 20]).keys_without_older_versions))) :=
  ⟨by decide,
    get_object_versions_classifies_each_key 10
      [ObjVersion.mk "a" "v1" 5, ObjVersion.mk "b" "v2" 20] "a" (by decide)⟩

/-- C2: for a key with at least one version at or before the cutoff, the
entry chosen by `get_object_versions` carries `version_time` equal to the
maximum modification time at or before the cutoff among that key's
versions, and that timestamp is the same for every permutation of the
stream. -/
theorem target_version_time_is_max_and_order_independent (c : Nat)
    (s1 s2 : List ObjVersion) (k : String) (hperm : s1.Perm s2)
    (hex : ∃ v ∈ s1, v.key = k ∧ v.last_modified ≤ c) :
    ∃ i1 i2,
      dictGet (get_object_versions c s1).latest_versions k = some i1 ∧
      dictGet (get_object_versions c s2).latest_versions k = some i2 ∧
      (∃ v ∈ s1, v.key = k ∧ v.last_modified ≤ c ∧ v.last_modified = i1.version_time) ∧
      (∀ v ∈ s1, v.key = k → v.last_modified ≤ c → v.last_modified ≤ i1.version_time) ∧
      i1.version_time = i2.version_time := by
  have hex2 : ∃ v ∈ s2, v.key = k ∧ v.last_modified ≤ c := by
    obtain ⟨v, hv, hvq⟩ := hex
    exact ⟨v, hperm.mem_iff.mp hv, hvq⟩
  have h1 : ∃ t, maxQual c k s1 = some t := by
    cases hm : maxQual c k s1 with
    | none => exact absurd hex ((maxQual_eq_none_iff c k s1).mp hm)
    | some t => exact ⟨t, rfl⟩
  have h2 : ∃ t, maxQual c k s2 = some t := by
    cases hm : maxQual c k s2 with
    | none => exact absurd hex2 ((maxQual_eq_none_iff c k s2).mp hm)
    | some t => exact ⟨t, rfl⟩
  obtain ⟨t1, ht1⟩ := h1
  obtain ⟨t2, ht2⟩ := h2
  have hbt1 : bestTime (get_object_versions c s1) k = some t1 :=
    (bestTime_run c s1 k).trans ht1
  have hbt2 : bestTime (get_object_versions c s2) k = some t2 :=
    (bestTime_run c s2 k).trans ht2
  simp only [bestTime] at hbt1 hbt2
  obtain ⟨i1, hi1, hi1t⟩ := Option.map_eq_some'.mp hbt1
  obtain ⟨i2, hi2, hi2t⟩ := Option.map_eq_some'.mp hbt2
  obtain ⟨hmem1, hub1⟩ := maxQual_spec c k s1 t1 ht1
  obtain ⟨hmem2, hub2⟩ := maxQual_spec c k s2 t2 ht2
  have ht12 : t1 = t2 := by
    apply le_antisymm
    · obtain ⟨w, hw, hwk, hwle, hwt⟩ := hmem1
      rw [← hwt]
      exact hub2 w (hperm.mem_iff.mp hw) hwk hwle
    · obtain ⟨w, hw, hwk, hwle, hwt⟩ := hmem2
      rw [← hwt]
      exact hub1 w (hperm.mem_iff.mpr hw) hwk hwle
  refine ⟨i1, i2, hi1, hi2, ?_, ?_, ?_⟩
  · obtain ⟨w, hw, hwk, hwle, hwt⟩ := hmem1
    exact ⟨w, hw, hwk, hwle, by rw [hwt, ← hi1t]⟩
  · intro v hv hvk hvle
    rw [hi1t]
    exact hub1 v hv hvk hvle
  · rw [hi1t, hi2t, ht12]

/-- Witness for C2 at a concrete stream and its reversal. -/
theorem target_version_time_is_max_and_order_independent_witness :
    (List.Perm [ObjVersion.mk "k" "v1" 3, ObjVersion.mk "k" "v2" 7]
        [ObjVersion.mk "k" "v2" 7, ObjVersion.mk "k" "v1" 3] ∧
      (∃ v ∈ [ObjVersion.mk "k" "v1" 3, ObjVersion.mk "k" "v2" 7],
        v.key = "k" ∧ v.last_modified ≤ 10) ∧
      ∃ i1 i2,
        dictGet (get_object_versions 10
          [ObjVersion.mk "k" "v1" 3, ObjVersion.mk "k" "v2" 7]).latest_versions "k" = some i1 ∧
        dictGet (get_object_versions 10
          [ObjVersion.mk "k" "v2" 7, ObjVersion.mk "k" "v1" 3]).latest_versions "k" = some i2 ∧
        (∃ v ∈ [ObjVersion.mk "k" "v1" 3, ObjVersion.mk "k" "v2" 7],
          v.key = "k" ∧ v.last_modified ≤ 10 ∧ v.last_modified = i1.version_time) ∧
        (∀ v ∈ [ObjVersion.mk "k" "v1" 3, ObjVersion.mk "k" "v2" 7],
          v.key = "k" → v.last_modified ≤ 10 → v.last_modified ≤ i1.version_time) ∧
        i1.version_time = i2.version_time) :=
  ⟨by decide, by decide,
    target_version_time_is_max_and_order_independent 10
      [ObjVersion.mk "k" "v1" 3, ObjVersion.mk "k" "v2" 7]
      [ObjVersion.mk "k" "v2" 7, ObjVersion.mk "k" "v1" 3] "k" (by decide) (by decide)⟩

/-- C3: an observed key lands in `keys_without_older_versions` iff none of
its observed versions has modification time at or before the cutoff; a
version whose time equals the cutoff exactly disqualifies the key. -/
theorem orphan_iff_no_version_at_or_before_cutoff (c : Nat) (stream : List ObjVersion)
    (k : String) (hobs : ∃ v ∈ stream, v.key = k) :
    ((k ∈ (get_object_versions c stream).keys_without_older_versions ↔
        ∀ v ∈ stream, v.key = k → c < v.last_modified) ∧
      (∀ v ∈ stream, v.key = k → v.last_modified = c →
        k ∉ (get_object_versions c stream).keys_without_older_versions)) := by
  constructor
  · rw [mem_orphans_run]
    constructor
    · rintro ⟨hnq, _⟩ v hv hvk
      exact Nat.lt_of_not_le (fun hle => hnq ⟨v, hv, hvk, hle⟩)
    · intro hall
      refine ⟨?_, ?_⟩
      · rintro ⟨v, hv, hvk, hvle⟩
        exact absurd (hall v hv hvk) (Nat.not_lt.mpr hvle)
      · obtain ⟨v, hv, hvk⟩ := hobs
        exact ⟨v, hv, hvk, hall v hv hvk⟩
  · intro v hv hvk hveq
    rw [mem_orphans_run]
    rintro ⟨hnq, _⟩
    exact hnq ⟨v, hv, hvk, le_of_eq hveq⟩

/-- Witness for C3 at a concrete stream whose only version of "a" sits
exactly at the cutoff. -/
theorem orphan_iff_no_version_at_or_before_cutoff_witness :
    ((∃ v ∈ [ObjVersion.mk "a" "v1" 10], v.key = "a") ∧
      (("a" ∈ (get_object_versions 10 [ObjVersion.mk "a" "v1" 10]).keys_without_older_versions ↔
          ∀ v ∈ [ObjVersion.mk "a" "v1" 10], v.key = "a" → 10 < v.last_modified) ∧
        (∀ v ∈ [ObjVersion.mk "a" "v1" 10], v.key = "a" → v.last_modified = 10 →
          "a" ∉ (get_object_versions 10
            [ObjVersion.mk "a" "v1" 10]).keys_without_older_versions))) :=
  ⟨by decide,
    orphan_iff_no_version_at_or_before_cutoff 10 [ObjVersion.mk "a" "v1" 10] "a" (by decide)⟩

/-- C4 counterexample: with two versions of key "k" at the same time 5,
both at or before cutoff 10, `get_object_versions` records the one
processed FIRST ("v1"), not the one processed later ("v2"): the update
guard `version_time > latest_versions[key]['version_time']` is strict. -/
theorem tie_break_counterexample :
    ((dictGet (get_object_versions 10
        [ObjVersion.mk "k" "v1" 5, ObjVersion.mk "k" "v2" 5]).latest_versions "k").map
        VersionInfo.versionid = some "v1" ∧
      ¬ ((dictGet (get_object_versions 10
        [ObjVersion.mk "k" "v1" 5, ObjVersion.mk "k" "v2" 5]).latest_versions "k").map
        VersionInfo.versionid = some "v2")) := by
  constructor
  · decide
  · decide

/-- C4 amended: when a later version shares the key and the exact
modification time of the currently recorded entry (both at or before the
cutoff), the entry processed EARLIER stays recorded — first-write-wins by
arrival order. -/
theorem tie_break_first_processed_wins (c : Nat) (l : List ObjVersion) (w : ObjVersion)
    (info : VersionInfo)
    (h : dictGet (get_object_versions c l).latest_versions w.key = some info)
    (hle : w.last_modified ≤ c) (heq : w.last_modified = info.version_time) :
    dictGet (get_object_versions c (l ++ [w])).latest_versions w.key = some info := by
  have happ : get_object_versions c (l ++ [w])
      = processVersion c (get_object_versions c l) w := by
    unfold get_object_versions
    rw [List.foldl_append]
    rfl
  have hngt : ¬ w.last_modified > info.version_time := by
    rw [heq]
    exact lt_irrefl info.version_time
  rw [happ]
  unfold processVersion
  simp [hle, h, hngt]

/-- Witness for the amended C4 at a concrete tied pair. -/
theorem tie_break_first_processed_wins_witness :
    (dictGet (get_object_versions 10 [ObjVersion.mk "k" "v1" 5]).latest_versions "k"
        = some (VersionInfo.mk "v1" 5 5) ∧
      (5 : Nat) ≤ 10 ∧ (5 : Nat) = 5 ∧
      dictGet (get_object_versions 10
        [ObjVersion.mk "k" "v1" 5, ObjVersion.mk "k" "v2" 5]).latest_versions "k"
        = some (VersionInfo.mk "v1" 5 5)) :=
  ⟨by decide, by decide, rfl,
    tie_break_first_processed_wins 10 [ObjVersion.mk "k" "v1" 5] (ObjVersion.mk "k" "v2" 5)
      (VersionInfo.mk "v1" 5 5) (by decide) (by decide) (by decide)⟩

/-- C10: once a key has an entry in `latest_versions` mid-scan, extending
the scan by any further records keeps an entry for it, never decreases its
recorded `version_time`, and the key can never (re-)enter
`keys_without_older_versions`. -/
theorem restorable_classification_is_irrevocable (c : Nat) (pre suf : List ObjVersion)
    (k : String) (info : VersionInfo)
    (h : dictGet (get_object_versions c pre).latest_versions k = some info) :
    ∃ info',
      dictGet (get_object_versions c (pre ++ suf)).latest_versions k = some info' ∧
      info.version_time ≤ info'.version_time ∧
      k ∉ (get_object_versions c (pre ++ suf)).keys_without_older_versions := by
  have happ : get_object_versions c (pre ++ suf)
      = List.foldl (processVersion c) (get_object_versions c pre) suf := by
    unfold get_object_versions
    rw [List.foldl_append]
  have hbt : bestTime (get_object_versions c pre) k = some info.version_time := by
    simp [bestTime, h]
  have hfold := bestTime_foldl c suf (get_object_versions c pre) k
  rw [hbt] at hfold
  obtain ⟨u, hu, hau⟩ := omax_some_left info.version_time (maxQual c k suf)
  rw [hu] at hfold
  rw [← happ] at hfold
  simp only [bestTime] at hfold
  obtain ⟨info', hinfo', hvt⟩ := Option.map_eq_some'.mp hfold
  refine ⟨info', hinfo', ?_, ?_⟩
  · rw [hvt]
    exact hau
  · rw [happ, mem_orphans_foldl]
    rintro ⟨hnq, hrest⟩
    rcases hrest with hmem | ⟨hnone, _⟩
    · rw [mem_orphans_run] at hmem
      obtain ⟨hnq2, _⟩ := hmem
      have hmq : maxQual c k pre = some info.version_time :=
        (bestTime_run c pre k).symm.trans hbt
      obtain ⟨⟨w, hw, hwk, hwle, _⟩, _⟩ := maxQual_spec c k pre _ hmq
      exact hnq2 ⟨w, hw, hwk, hwle⟩
    · rw [hnone] at h
      exact Option.noConfusion h

/-- C5: with `dry_run` set, `restore_latest_versions` issues no copy call
and `delete_newer_versions` issues no delete call; each emits exactly one
intended-action log line per entry of its input. -/
theorem dry_run_issues_no_mutating_calls (bucket_name : String)
    (copy_object : CopyCall → Except String Unit)
    (delete_object : String → Except String Unit)
    (latest_versions : List (String × VersionInfo)) (orphans : List String) :
    (restore_latest_versions bucket_name copy_object latest_versions true
        = ([], latest_versions.map (fun p => LogLine.dryRunWouldRestore p.1 p.2.versionid)) ∧
      delete_newer_versions delete_object orphans true
        = ([], orphans.map LogLine.dryRunWouldDelete)) := by
  constructor
  · induction latest_versions with
    | nil => rfl
    | cons p rest ih =>
        obtain ⟨key, info⟩ := p
        simp [restore_latest_versions, ih]
  · induction orphans with
    | nil => rfl
    | cons key rest ih =>
        simp [delete_newer_versions, ih]

/-- C6: with `dry_run` off, both apply phases attempt the storage call for
every entry of their input — whatever errors the storage client returns
for other entries — and a failing call is logged with key/version context
instead of propagating. -/
theorem per_key_failures_do_not_abort (bucket_name : String)
    (copy_object : CopyCall → Except String Unit)
    (delete_object : String → Except String Unit)
    (latest_versions : List (String × VersionInfo)) (orphans : List String) :
    ((restore_latest_versions bucket_name copy_object latest_versions false).1
        = latest_versions.map (fun p => CopyCall.mk bucket_name p.1 p.1 p.2.versionid) ∧
      (delete_newer_versions delete_object orphans false).1 = orphans ∧
      (∀ p ∈ latest_versions, ∀ e,
        copy_object (CopyCall.mk bucket_name p.1 p.1 p.2.versionid) = Except.error e →
        LogLine.restoreError p.1 p.2.versionid e
          ∈ (restore_latest_versions bucket_name copy_object latest_versions false).2) ∧
      (∀ key ∈ orphans, ∀ e, delete_object key = Except.error e →
        LogLine.deleteError key e
          ∈ (delete_newer_versions delete_object orphans false).2)) := by
  refine ⟨?_, ?_, ?_, ?_⟩
  · induction latest_versions with
    | nil => rfl
    | cons p rest ih =>
        obtain ⟨key, info⟩ := p
        cases h : copy_object (CopyCall.mk bucket_name key key info.versionid) with
        | ok u => simp [restore_latest_versions, h, ih]
        | error e => simp [restore_latest_versions, h, ih]
  · induction orphans with
    | nil => rfl
    | cons key rest ih =>
        cases h : delete_object key with
        | ok u => simp [delete_newer_versions, h, ih]
        | error e => simp [delete_newer_versions, h, ih]
  · induction latest_versions with
    | nil => intro p hp; simp at hp
    | cons q rest ih =>
        obtain ⟨key, info⟩ := q
        intro p hp e he
        rcases List.mem_cons.mp hp with hp | hp
        · subst hp
          simp only at he
          simp [restore_latest_versions, he]
        · cases h : copy_object (CopyCall.mk bucket_name key key info.versionid) with
          | ok u =>
              simp only [restore_latest_versions, h]
              exact List.mem_cons_of_mem _ (ih p hp e he)
          | error e' =>
              simp only [restore_latest_versions, h]
              exact List.mem_cons_of_mem _ (List.mem_cons_of_mem _ (ih p hp e he))
  · induction orphans with
    | nil => intro key hk; simp at hk
    | cons key0 rest ih =>
        intro key hk e he
        rcases List.mem_cons.mp hk with hk | hk
        · subst hk
          simp [delete_newer_versions, he]
        · cases h : delete_object key0 with
          | ok u =>
              simp only [delete_newer_versions, h]
              exact List.mem_cons_of_mem _ (ih key hk e he)
          | error e' =>
              simp only [delete_newer_versions, h]
              exact List.mem_cons_of_mem _ (List.mem_cons_of_mem _ (ih key hk e he))

/-- Witness for C6: an always-failing storage client still attempts the
call for both entries, and both failures are logged. -/
theorem per_key_failures_do_not_abort_witness :
    ((restore_latest_versions "b" (fun _ => Except.error "boom")
        [("k1", VersionInfo.mk "v1" 1 1), ("k2", VersionInfo.mk "v2" 2 2)] false).1
        = [CopyCall.mk "b" "k1" "k1" "v1", CopyCall.mk "b" "k2" "k2" "v2"] ∧
      (delete_newer_versions (fun _ => Except.error "boom") ["k3", "k4"] false).1
        = ["k3", "k4"] ∧
      LogLine.restoreError "k2" "v2" "boom"
        ∈ (restore_latest_versions "b" (fun _ => Except.error "boom")
            [("k1", VersionInfo.mk "v1" 1 1), ("k2", VersionInfo.mk "v2" 2 2)] false).2 ∧
      LogLine.deleteError "k4" "boom"
        ∈ (delete_newer_versions (fun _ => Except.error "boom") ["k3", "k4"] false).2) :=
  ⟨(per_key_failures_do_not_abort "b" (fun _ => Except.error "boom")
      (fun _ => Except.error "boom")
      [("k1", VersionInfo.mk "v1" 1 1), ("k2", VersionInfo.mk "v2" 2 2)] ["k3", "k4"]).1,
    (per_key_failures_do_not_abort "b" (fun _ => Except.error "boom")
      (fun _ => Except.error "boom")
      [("k1", VersionInfo.mk "v1" 1 1), ("k2", VersionInfo.mk "v2" 2 2)] ["k3", "k4"]).2.1,
    (per_key_failures_do_not_abort "b" (fun _ => Except.error "boom")
      (fun _ => Except.error "boom")
      [("k1", VersionInfo.mk "v1" 1 1), ("k2", VersionInfo.mk "v2" 2 2)] ["k3", "k4"]).2.2.1
      ("k2", VersionInfo.mk "v2" 2 2) (by simp) "boom" rfl,
    (per_key_failures_do_not_abort "b" (fun _ => Except.error "boom")
      (fun _ => Except.error "boom")
      [("k1", VersionInfo.mk "v1" 1 1), ("k2", VersionInfo.mk "v2" 2 2)] ["k3", "k4"]).2.2.2
      "k4" (by simp) "boom" rfl⟩

/-- C8: `recover_objects` runs the delete phase iff `delete_newer` is set;
with the flag off the outcome contains no delete call and no delete log,
while the restore phase runs unconditionally; with it on, the delete phase
output is exactly that of `delete_newer_versions`. -/
theorem delete_phase_gated_by_flag (svc : ListRequest → Except String ListPage)
    (copy_object : CopyCall → Except String Unit)
    (delete_object : String → Except String Unit)
    (bucket_name pfx : String) (recovery_time : Nat) (dry_run : Bool) (fuel : Nat)
    (st : ScanState) (reqs : List ListRequest)
    (h : get_object_versions_paged svc pfx recovery_time fuel = Except.ok (some (st, reqs))) :
    ((recover_objects svc copy_object delete_object bucket_name pfx recovery_time
        dry_run false fuel
        = Except.ok (some (RecoverOutcome.mk
            (restore_latest_versions bucket_name copy_object st.latest_versions dry_run).1
            []
            (restore_latest_versions bucket_name copy_object st.latest_versions dry_run).2
            []))) ∧
      (recover_objects svc copy_object delete_object bucket_name pfx recovery_time
        dry_run true fuel
        = Except.ok (some (RecoverOutcome.mk
            (restore_latest_versions bucket_name copy_object st.latest_versions dry_run).1
            (delete_newer_versions delete_object st.keys_without_older_versions dry_run).1
            (restore_latest_versions bucket_name copy_object st.latest_versions dry_run).2
            (delete_newer_versions delete_object st.keys_without_older_versions dry_run).2)))) := by
  constructor
  · unfold recover_objects
    rw [h]
    simp
  · unfold recover_objects
    rw [h]
    simp

/-- Witness for C8 on a one-page empty listing. -/
theorem delete_phase_gated_by_flag_witness :
    (get_object_versions_paged (fun _ => Except.ok (ListPage.mk [] false "" "")) "p" 0 1
        = Except.ok (some (ScanState.mk [] [], [ListRequest.mk "p" "" "" 999])) ∧
      (recover_objects (fun _ => Except.ok (ListPage.mk [] false "" ""))
          (fun _ => Except.ok ()) (fun _ => Except.ok ()) "b" "p" 0 false false 1
          = Except.ok (some (RecoverOutcome.mk
              (restore_latest_versions "b" (fun _ => Except.ok ())
                (ScanState.mk [] []).latest_versions false).1
              []
              (restore_latest_versions "b" (fun _ => Except.ok ())
                (ScanState.mk [] []).latest_versions false).2
              []))) ∧
      (recover_objects (fun _ => Except.ok (ListPage.mk [] false "" ""))
          (fun _ => Except.ok ()) (fun _ => Except.ok ()) "b" "p" 0 false true 1
          = Except.ok (some (RecoverOutcome.mk
              (restore_latest_versions "b" (fun _ => Except.ok ())
                (ScanState.mk [] []).latest_versions false).1
              (delete_newer_versions (fun _ => Except.ok ())
                (ScanState.mk [] []).keys_without_older_versions false).1
              (restore_latest_versions "b" (fun _ => Except.ok ())
                (ScanState.mk [] []).latest_versions false).2
              (delete_newer_versions (fun _ => Except.ok ())
                (ScanState.mk [] []).keys_without_older_versions false).2)))) :=
  ⟨rfl,
    (delete_phase_gated_by_flag (fun _ => Except.ok (ListPage.mk [] false "" ""))
      (fun _ => Except.ok ()) (fun _ => Except.ok ()) "b" "p" 0 false 1
      (ScanState.mk [] []) [ListRequest.mk "p" "" "" 999] rfl).1,
    (delete_phase_gated_by_flag (fun _ => Except.ok (ListPage.mk [] false "" ""))
      (fun _ => Except.ok ()) (fun _ => Except.ok ()) "b" "p" 0 false 1
      (ScanState.mk [] []) [ListRequest.mk "p" "" "" 999] rfl).2⟩

/-- Witness for C10: key "a" is recorded after the first record and stays
recorded (with a non-decreasing timestamp, out of the orphan set) after a
newer-than-cutoff record of the same key follows. -/
theorem restorable_classification_is_irrevocable_witness :
    (dictGet (get_object_versions 10 [ObjVersion.mk "a" "v1" 5]).latest_versions "a"
        = some (VersionInfo.mk "v1" 5 5) ∧
      ∃ info',
        dictGet (get_object_versions 10
          ([ObjVersion.mk "a" "v1" 5] ++ [ObjVersion.mk "a" "v2" 20])).latest_versions "a"
          = some info' ∧
        (VersionInfo.mk "v1" 5 5).version_time ≤ info'.version_time ∧
        "a" ∉ (get_object_versions 10
          ([ObjVersion.mk "a" "v1" 5] ++ [ObjVersion.mk "a" "v2" 20])).keys_without_older_versions) :=
  ⟨by decide,
    restorable_classification_is_irrevocable 10 [ObjVersion.mk "a" "v1" 5]
      [ObjVersion.mk "a" "v2" 20] "a" (VersionInfo.mk "v1" 5 5) (by decide)⟩

theorem gov_loop_chain_error (svc : ListRequest → Except String ListPage) (pfx : String)
    (c : Nat) :
    ∀ (d j : Nat) (st : ScanState) (reqs : List ListRequest) (fuel : Nat) (e : String),
      (∀ i, j ≤ i → i < j + d →
        ∃ p, svc (chainReq svc pfx i) = Except.ok p ∧ p.is_truncated = true) →
      svc (chainReq svc pfx (j + d)) = Except.error e →
      d + 1 ≤ fuel →
      gov_loop svc pfx c fuel (markerChain svc pfx j).1 (markerChain svc pfx j).2 st reqs
        = Except.error e := by
  intro d
  induction d with
  | zero =>
      intro j st reqs fuel e hok herr hfuel
      cases fuel with
      | zero => exact absurd hfuel (by decide)
      | succ n =>
          have herr' : svc (chainReq svc pfx j) = Except.error e := by simpa using herr
          unfold gov_loop
          unfold chainReq at herr'
          rw [herr']
  | succ d ihd =>
      intro j st reqs fuel e hok herr hfuel
      cases fuel with
      | zero => exact absurd hfuel (by omega)
      | succ n =>
          obtain ⟨p, hp, hpt⟩ := hok j (le_refl j) (by omega)
          have hnext : markerChain svc pfx (j + 1)
              = (p.next_key_marker, p.next_versionid_marker) := by
            unfold markerChain
            unfold chainReq at hp
            rw [hp]
          have hok' : ∀ i, j + 1 ≤ i → i < j + 1 + d →
              ∃ q, svc (chainReq svc pfx i) = Except.ok q ∧ q.is_truncated = true := by
            intro i h1 h2
            exact hok i (by omega) (by omega)
          have herr' : svc (chainReq svc pfx (j + 1 + d)) = Except.error e := by
            rw [show j + 1 + d = j + (d + 1) by omega]
            exact herr
          have ih := ihd (j + 1) (p.versions.foldl (processVersion c) st)
            (reqs ++ [chainReq svc pfx j]) n e hok' herr' (by omega)
          unfold gov_loop
          unfold chainReq at hp
          rw [hp]
          simp only [hpt, if_true]
          rw [hnext] at ih
          rw [show (ListRequest.mk pfx (markerChain svc pfx j).1 (markerChain svc pfx j).2 999)
            = chainReq svc pfx j from rfl]
          exact ih

/-- C7: an error from `list_object_versions` on ANY page request — after
any number of successfully answered truncated pages, the failing page
being the `M`-th request of the marker chain — propagates out of
`get_object_versions` uncaught (no catch, retry or partial result), and a
propagated listing error makes `recover_objects` return it, so no restore
or delete work is attempted in that run. -/
theorem listing_error_propagates (svc : ListRequest → Except String ListPage)
    (copy_object : CopyCall → Except String Unit)
    (delete_object : String → Except String Unit)
    (bucket_name pfx : String) (recovery_time : Nat) (dry_run delete_newer : Bool)
    (fuel M : Nat) (e : String) :
    (((∀ i, i < M →
          ∃ p, svc (chainReq svc pfx i) = Except.ok p ∧ p.is_truncated = true) →
        svc (chainReq svc pfx M) = Except.error e → M + 1 ≤ fuel →
        get_object_versions_paged svc pfx recovery_time fuel = Except.error e) ∧
      (get_object_versions_paged svc pfx recovery_time fuel = Except.error e →
        recover_objects svc copy_object delete_object bucket_name pfx recovery_time
          dry_run delete_newer fuel = Except.error e)) := by
  constructor
  · intro hok herr hfuel
    have h := gov_loop_chain_error svc pfx recovery_time M 0 (ScanState.mk [] []) [] fuel e
      (fun i h1 h2 => hok i (by omega)) (by simpa using herr) (by omega)
    unfold get_object_versions_paged
    simpa [markerChain] using h
  · intro h
    unfold recover_objects
    rw [h]

/-- Witness for C7: a service whose first page succeeds (truncated) and
whose second page request fails makes the whole run fail with that error
mid-pagination, and `recover_objects` returns it. -/
theorem listing_error_propagates_witness :
    ((∀ i, i < 1 → ∃ p, svcSecondPageFails (chainReq svcSecondPageFails "p" i)
        = Except.ok p ∧ p.is_truncated = true) ∧
      svcSecondPageFails (chainReq svcSecondPageFails "p" 1) = Except.error "boom" ∧
      (1 : Nat) + 1 ≤ 2 ∧
      get_object_versions_paged svcSecondPageFails "p" 0 2 = Except.error "boom" ∧
      recover_objects svcSecondPageFails (fun _ => Except.ok ())
        (fun _ => Except.ok ()) "b" "p" 0 false true 2 = Except.error "boom") := by
  have hok : ∀ i, i < 1 → ∃ p, svcSecondPageFails (chainReq svcSecondPageFails "p" i)
      = Except.ok p ∧ p.is_truncated = true := by
    intro i hi
    have hi0 : i = 0 := by omega
    subst hi0
    exact ⟨ListPage.mk [] true "next" "nv", rfl, rfl⟩
  have herr : svcSecondPageFails (chainReq svcSecondPageFails "p" 1)
      = Except.error "boom" := rfl
  have h1 : get_object_versions_paged svcSecondPageFails "p" 0 2 = Except.error "boom" :=
    (listing_error_propagates svcSecondPageFails (fun _ => Except.ok ())
      (fun _ => Except.ok ()) "b" "p" 0 false true 2 1 "boom").1 hok herr (by omega)
  have h2 : recover_objects svcSecondPageFails (fun _ => Except.ok ())
      (fun _ => Except.ok ()) "b" "p" 0 false true 2 = Except.error "boom" :=
    (listing_error_propagates svcSecondPageFails (fun _ => Except.ok ())
      (fun _ => Except.ok ()) "b" "p" 0 false true 2 1 "boom").2 h1
  exact ⟨hok, herr, by omega, h1, h2⟩

theorem gov_loop_chain (svc : ListRequest → Except String ListPage) (pfx : String)
    (c : Nat) :
    ∀ (d j : Nat) (st : ScanState) (reqs : List ListRequest) (fuel : Nat),
      (∀ i, j ≤ i → i ≤ j + d → ∃ p, svc (chainReq svc pfx i) = Except.ok p) →
      (∀ i p, j ≤ i → i < j + d → svc (chainReq svc pfx i) = Except.ok p →
        p.is_truncated = true) →
      (∀ p, svc (chainReq svc pfx (j + d)) = Except.ok p → p.is_truncated = false) →
      d + 1 ≤ fuel →
      ∃ st', gov_loop svc pfx c fuel (markerChain svc pfx j).1 (markerChain svc pfx j).2 st reqs
        = Except.ok (some (st', reqs ++ (List.range' j (d + 1)).map (chainReq svc pfx))) := by
  intro d
  induction d with
  | zero =>
      intro j st reqs fuel hok htr hlast hfuel
      cases fuel with
      | zero => exact absurd hfuel (by decide)
      | succ n =>
          obtain ⟨p, hp⟩ := hok j (le_refl j) (Nat.le_add_right j 0)
          have hpt : p.is_truncated = false := hlast p (by simpa using hp)
          refine ⟨p.versions.foldl (processVersion c) st, ?_⟩
          unfold gov_loop
          unfold chainReq at hp
          rw [hp]
          simp [hpt, List.range'_succ, chainReq]
  | succ d ihd =>
      intro j st reqs fuel hok htr hlast hfuel
      cases fuel with
      | zero => exact absurd hfuel (by omega)
      | succ n =>
          obtain ⟨p, hp⟩ := hok j (le_refl j) (by omega)
          have hpt : p.is_truncated = true := htr j p (le_refl j) (by omega) hp
          have hnext : markerChain svc pfx (j + 1)
              = (p.next_key_marker, p.next_versionid_marker) := by
            unfold markerChain
            unfold chainReq at hp
            rw [hp]
          have hok' : ∀ i, j + 1 ≤ i → i ≤ j + 1 + d →
              ∃ q, svc (chainReq svc pfx i) = Except.ok q := by
            intro i h1 h2
            exact hok i (by omega) (by omega)
          have htr' : ∀ i q, j + 1 ≤ i → i < j + 1 + d →
              svc (chainReq svc pfx i) = Except.ok q → q.is_truncated = true := by
            intro i q h1 h2 hq
            exact htr i q (by omega) (by omega) hq
          have hlast' : ∀ q, svc (chainReq svc pfx (j + 1 + d)) = Except.ok q →
              q.is_truncated = false := by
            intro q hq
            apply hlast
            rw [show j + (d + 1) = j + 1 + d by omega]
            exact hq
          obtain ⟨st', hst'⟩ := ihd (j + 1) (p.versions.foldl (processVersion c) st)
            (reqs ++ [chainReq svc pfx j]) n hok' htr' hlast' (by omega)
          refine ⟨st', ?_⟩
          unfold gov_loop
          unfold chainReq at hp
          rw [hp]
          simp only [hpt, if_true]
          rw [hnext] at hst'
          rw [show (ListRequest.mk pfx (markerChain svc pfx j).1 (markerChain svc pfx j).2 999)
            = chainReq svc pfx j from rfl]
          rw [hst']
          rw [List.range'_succ]
          simp [List.append_assoc, List.range'_succ]

/-- C9: with the markers threaded along `markerChain`, when the service
answers every request up to index `N` and reports `is_truncated` false
first at index `N`, the pagination loop of `get_object_versions`
terminates after exactly `N + 1` requests; every request carries
`max_keys = 999` and the configured prefix, the first request has empty
markers, and each following request carries the previous response's
`next_key_marker`/`next_versionid_marker`. -/
theorem pagination_uses_max_keys_999_markers_and_terminates
    (svc : ListRequest → Except String ListPage) (pfx : String) (c : Nat) (N fuel : Nat)
    (hok : ∀ i, i ≤ N → ∃ p, svc (chainReq svc pfx i) = Except.ok p)
    (htr : ∀ i p, i < N → svc (chainReq svc pfx i) = Except.ok p → p.is_truncated = true)
    (hlast : ∀ p, svc (chainReq svc pfx N) = Except.ok p → p.is_truncated = false)
    (hfuel : N + 1 ≤ fuel) :
    ∃ st',
      get_object_versions_paged svc pfx c fuel
        = Except.ok (some (st', (List.range (N + 1)).map (chainReq svc pfx))) ∧
      ((List.range (N + 1)).map (chainReq svc pfx)).length = N + 1 ∧
      (∀ r ∈ (List.range (N + 1)).map (chainReq svc pfx), r.max_keys = 999 ∧ r.pfx = pfx) ∧
      (chainReq svc pfx 0).key_marker = "" ∧
      (chainReq svc pfx 0).versionid_marker = "" ∧
      (∀ i p, svc (chainReq svc pfx i) = Except.ok p →
        ((chainReq svc pfx (i + 1)).key_marker = p.next_key_marker ∧
          (chainReq svc pfx (i + 1)).versionid_marker = p.next_versionid_marker)) := by
  obtain ⟨st', hst'⟩ := gov_loop_chain svc pfx c N 0 (ScanState.mk [] []) [] fuel
    (fun i h1 h2 => hok i (by omega)) (fun i p h1 h2 hp => htr i p (by omega) hp)
    (fun p hp => hlast p (by simpa using hp)) (by omega)
  refine ⟨st', ?_, ?_, ?_, rfl, rfl, ?_⟩
  · unfold get_object_versions_paged
    rw [List.range_eq_range']
    simpa [markerChain] using hst'
  · simp
  · intro r hr
    simp only [List.mem_map] at hr
    obtain ⟨i, _, hi⟩ := hr
    rw [← hi]
    exact ⟨rfl, rfl⟩
  · intro i p hp
    have h1 : markerChain svc pfx (i + 1)
        = (p.next_key_marker, p.next_versionid_marker) := by
      unfold markerChain
      unfold chainReq at hp
      rw [hp]
    constructor
    · show (markerChain svc pfx (i + 1)).1 = p.next_key_marker
      rw [h1]
    · show (markerChain svc pfx (i + 1)).2 = p.next_versionid_marker
      rw [h1]

/-- Witness for C9: a service whose first page is already not truncated
makes the loop stop after exactly one request with `max_keys = 999` and
empty markers. -/
theorem pagination_uses_max_keys_999_markers_and_terminates_witness :
    ((1 : Nat) ≤ 1 ∧
      ∃ st',
        get_object_versions_paged svcOnePage "p" 0 1
          = Except.ok (some (st', (List.range 1).map (chainReq svcOnePage "p"))) ∧
        ((List.range 1).map (chainReq svcOnePage "p")).length = 1 ∧
        (∀ r ∈ (List.range 1).map (chainReq svcOnePage "p"),
          r.max_keys = 999 ∧ r.pfx = "p") ∧
        (chainReq svcOnePage "p" 0).key_marker = "" ∧
        (chainReq svcOnePage "p" 0).versionid_marker = "" ∧
        (∀ i p, svcOnePage (chainReq svcOnePage "p" i) = Except.ok p →
          ((chainReq svcOnePage "p" (i + 1)).key_marker = p.next_key_marker ∧
            (chainReq svcOnePage "p" (i + 1)).versionid_marker
              = p.next_versionid_marker))) :=
  ⟨le_refl 1,
    pagination_uses_max_keys_999_markers_and_terminates svcOnePage "p" 0 0 1
      (fun i _ => ⟨ListPage.mk [] false "" "", rfl⟩)
      (fun i p hi => absurd hi (Nat.not_lt_zero i))
      (fun p hp => by
        simp only [svcOnePage, Except.ok.injEq] at hp
        subst hp
        rfl)
      (le_refl 1)⟩

end OssPitr
